import Mathlib

/-!
Shallow embedding of the time-arithmetic core of `src/src/bus-watchface.c`:
the `day_time` value type, the `compare` total order, the compiled-in
`schedule` timetable, the `next_arrival` linear scan with +24-hour
wraparound fallback, the `minutes_difference` carry-based duration
calculator, and the formatting branches of `update_content`.

C `int` values are modelled as `Int`; all values involved stay far from
the machine-integer bounds, so no overflow wrapping arises.
-/

namespace BusWatchface

/-- Embedding of `typedef struct { int hour; int minute; } day_time;`
(line 22 of the source). -/
structure day_time where
  hour : Int
  minute : Int
deriving DecidableEq

/-- Embedding of `static int compare(day_time a, day_time b)`
(lines 99–107): `-1` when `a.hour < b.hour`, the minute difference when
the hours are equal, `1` otherwise. -/
def compare (a b : day_time) : Int :=
  if a.hour < b.hour then -1
  else if a.hour = b.hour then a.minute - b.minute
  else 1

/-- Embedding of the compiled-in `static day_time schedule[]`
(lines 29–90), in stored order.  `{13, 06}` in the C source is the octal
literal for 6. -/
def schedule : List day_time :=
  [⟨5, 47⟩, ⟨6, 6⟩, ⟨6, 25⟩, ⟨6, 45⟩, ⟨7, 6⟩, ⟨7, 21⟩, ⟨7, 37⟩, ⟨7, 53⟩,
   ⟨8, 9⟩, ⟨8, 25⟩, ⟨8, 40⟩, ⟨9, 7⟩, ⟨9, 29⟩, ⟨9, 51⟩, ⟨10, 14⟩, ⟨10, 36⟩,
   ⟨10, 58⟩, ⟨11, 19⟩, ⟨11, 40⟩, ⟨12, 2⟩, ⟨12, 23⟩, ⟨12, 44⟩, ⟨13, 6⟩,
   ⟨13, 27⟩, ⟨13, 48⟩, ⟨14, 10⟩, ⟨14, 26⟩, ⟨14, 42⟩, ⟨14, 58⟩, ⟨15, 14⟩,
   ⟨15, 30⟩, ⟨15, 46⟩, ⟨16, 7⟩, ⟨16, 28⟩, ⟨16, 50⟩, ⟨17, 6⟩, ⟨17, 22⟩,
   ⟨17, 38⟩, ⟨17, 54⟩, ⟨18, 10⟩, ⟨18, 26⟩, ⟨18, 42⟩, ⟨18, 58⟩, ⟨19, 14⟩,
   ⟨19, 30⟩, ⟨19, 54⟩, ⟨20, 18⟩, ⟨20, 42⟩, ⟨21, 5⟩, ⟨21, 24⟩, ⟨21, 43⟩,
   ⟨22, 3⟩, ⟨22, 22⟩, ⟨22, 41⟩, ⟨23, 1⟩, ⟨23, 20⟩, ⟨23, 39⟩, ⟨23, 59⟩,
   ⟨0, 18⟩, ⟨0, 37⟩]

/-- Embedding of `static int schedule_size` (line 91). -/
def schedule_size : Int := schedule.length

/-- Embedding of `day_time next_arrival(day_time now)` (lines 113–124):
scan the schedule in stored order, return the first entry that compares
strictly greater than `now`; if none does, return `schedule[0]` with its
hour incremented by 24. -/
def next_arrival (now : day_time) : day_time :=
  match schedule.find? (fun e => decide (0 < compare e now)) with
  | some e => e
  | none =>
    let a := schedule.headD ⟨0, 0⟩
    { a with hour := a.hour + 24 }

/-- Embedding of `int minutes_difference(const day_time* next, const
day_time* now)` (lines 130–139): minute delta, borrow of 60 with a carry
flag when negative, then the carried hour delta times 60. -/
def minutes_difference (next now : day_time) : Int :=
  let mins := next.minute - now.minute
  let carry : Int := if mins < 0 then 1 else 0
  let mins2 := if mins < 0 then mins + 60 else mins
  mins2 + (next.hour - now.hour - carry) * 60

/-- Embedding of the counter branch of `update_content` (lines 153–159):
the text set on the counter layer is `"60+m"` when `mins > 60`, and
otherwise the decimal rendering of `mins` followed by `"m"` (the
`snprintf(buf, …, "%dm", mins)` call; `mins` is at most 4 digits under the
callers that arise, so the 10-byte buffer never truncates). -/
def counter_text (mins : Int) : String :=
  if mins > 60 then "60+m" else toString mins ++ "m"

/-- Embedding of the hour normalization in `update_content` (lines
162–163): `if (a.hour > 24) a.hour -= 24;` — the hour rendered into the
details line. -/
def displayed_hour (a : day_time) : Int :=
  if a.hour > 24 then a.hour - 24 else a.hour

/-- Generalization of `next_arrival` over an arbitrary timetable list,
still line for line the loop and fallback of lines 113–124.  When the
list is empty the C fallback would read `schedule[0]` out of bounds;
that read has no defined value and is modelled as `none`. -/
def next_arrival_list (sched : List day_time) (now : day_time) : Option day_time :=
  match sched.find? (fun e => decide (0 < compare e now)) with
  | some e => some e
  | none => sched.head?.map (fun a => { a with hour := a.hour + 24 })

/-- Whether `static void init(void)` (lines 247–257) reports an
empty-timetable error for a given timetable.  The source's `init`
unconditionally creates the window, pushes it and subscribes the tick
handler; it never inspects the timetable and has no error path of any
kind, so the answer is `false` for every timetable. -/
def init_reports_empty_error (_sched : List day_time) : Bool := false

/-- Sortedness check for the timetable invariant: every entry compares
less than or equal to its successor under `compare` (adjacent pairs, in
stored order). -/
def ascending_pairs : List day_time → Bool
  | [] => true
  | [_] => true
  | a :: b :: rest => decide (compare a b ≤ 0) && ascending_pairs (b :: rest)

/-- Modelled from the spec (design note of §9): time as total minutes
since midnight of day 0, `hour * 60 + minute`.  This is the alternative
formulation the refinement claim compares `minutes_difference` against;
it does not appear in the source. -/
def total_minutes_model (t : day_time) : Int :=
  t.hour * 60 + t.minute

/-! Helper lemmas shared by the verification theorems. -/

/-- The carry-based duration computation always equals the difference of
total minutes, for all integer inputs (no range or ordering hypotheses
are needed: the borrow of 60 is exactly compensated by the carry). -/
lemma minutes_difference_total (next now : day_time) :
    minutes_difference next now =
      (next.hour * 60 + next.minute) - (now.hour * 60 + now.minute) := by
  simp only [minutes_difference]
  split_ifs <;> ring

/-- With minutes in range, `compare` is positive exactly when the first
argument denotes a strictly later total-minutes instant. -/
lemma compare_pos_iff (a b : day_time)
    (ha1 : 0 ≤ a.minute) (ha2 : a.minute ≤ 59)
    (hb1 : 0 ≤ b.minute) (hb2 : b.minute ≤ 59) :
    0 < compare a b ↔ b.hour * 60 + b.minute < a.hour * 60 + a.minute := by
  unfold compare
  split_ifs with h1 h2 <;> constructor <;> intro h <;> omega

/-- Every compiled-in schedule entry has hour in `[0, 23]` and minute in
`[0, 59]`. -/
lemma schedule_entries_valid :
    ∀ e ∈ schedule, 0 ≤ e.hour ∧ e.hour ≤ 23 ∧ 0 ≤ e.minute ∧ e.minute ≤ 59 := by
  decide

/-- A successful `find?` returns the element at the first index whose
predicate holds: all earlier indices fail the predicate. -/
lemma find?_first {α : Type} (p : α → Bool) :
    ∀ (l : List α) (a : α), l.find? p = some a →
      ∃ i : Fin l.length, l.get i = a ∧ p a = true ∧
        ∀ j : Fin l.length, (j : Nat) < (i : Nat) → p (l.get j) = false := by
  intro l
  induction l with
  | nil => intro a h; simp [List.find?] at h
  | cons x xs ih =>
    intro a h
    by_cases hx : p x
    · rw [List.find?_cons_of_pos _ hx] at h
      obtain rfl : x = a := by injection h
      refine ⟨⟨0, by simp⟩, rfl, hx, ?_⟩
      intro j hj
      simp at hj
    · rw [List.find?_cons_of_neg _ (by simpa using hx)] at h
      obtain ⟨i, hget, hpa, hprev⟩ := ih a h
      refine ⟨⟨i + 1, by simp⟩, by simpa using hget, hpa, ?_⟩
      intro j hj
      match j with
      | ⟨0, _⟩ => simpa using hx
      | ⟨k + 1, hk⟩ =>
        have hki : k < (i : Nat) := by simpa using hj
        simpa using hprev ⟨k, by omega⟩ hki

/-- Case analysis of the `next_arrival` scan: either it returns a
schedule entry that compares strictly greater than `now`, or no entry
does and it returns the wraparound value `⟨29, 47⟩`. -/
lemma next_arrival_cases (now : day_time) :
    (next_arrival now ∈ schedule ∧ 0 < compare (next_arrival now) now) ∨
    (next_arrival now = ⟨29, 47⟩ ∧ ∀ e ∈ schedule, compare e now ≤ 0) := by
  cases hf : schedule.find? (fun e => decide (0 < compare e now)) with
  | some e =>
    left
    have he : next_arrival now = e := by unfold next_arrival; rw [hf]
    rw [he]
    constructor
    · exact List.mem_of_find?_eq_some hf
    · simpa using List.find?_some hf
  | none =>
    right
    constructor
    · unfold next_arrival
      rw [hf]
      rfl
    · intro e he
      have hne := List.find?_eq_none.mp hf e he
      simp only [decide_eq_true_eq] at hne
      omega

/-- The wraparound result `⟨29, 47⟩` compares strictly greater than any
point with hour at most 23. -/
lemma compare_wrap_pos (m : day_time) (hm : m.hour ≤ 23) :
    0 < compare ⟨29, 47⟩ m := by
  have h : compare ⟨29, 47⟩ m =
      if (29 : Int) < m.hour then -1
      else if (29 : Int) = m.hour then 47 - m.minute else 1 := rfl
  rw [h]
  split_ifs <;> omega

/-- For a valid `now`, the duration to the next arrival is non-negative
and under one day. -/
lemma duration_bounds (now : day_time)
    (h1 : 0 ≤ now.hour) (h2 : now.hour ≤ 23)
    (h3 : 0 ≤ now.minute) (h4 : now.minute ≤ 59) :
    0 ≤ minutes_difference (next_arrival now) now ∧
      minutes_difference (next_arrival now) now < 1440 := by
  rcases next_arrival_cases now with ⟨hmem, hgt⟩ | ⟨heq, hall⟩
  · obtain ⟨e1, e2, e3, e4⟩ := schedule_entries_valid _ hmem
    have ht := (compare_pos_iff (next_arrival now) now e3 e4 h3 h4).mp hgt
    rw [minutes_difference_total]
    omega
  · have h2359 : compare ⟨23, 59⟩ now ≤ 0 := hall _ (by decide)
    have hc : compare (⟨23, 59⟩ : day_time) now =
        if (23 : Int) < now.hour then -1
        else if (23 : Int) = now.hour then 59 - now.minute else 1 := rfl
    rw [hc] at h2359
    have hn : now.hour = 23 ∧ now.minute = 59 := by
      split_ifs at h2359 <;> omega
    have hmd : minutes_difference (next_arrival now) now =
        (29 * 60 + 47) - (now.hour * 60 + now.minute) := by
      rw [heq, minutes_difference_total]
    rw [hmd]
    omega

/-- Every numeral emitted by `Nat.toDigitsCore` in base 10 is a decimal
digit character, provided the accumulator already contains only digit
characters. -/
lemma toDigitsCore_digits :
    ∀ (fuel n : Nat) (ds : List Char), (∀ c ∈ ds, c.isDigit = true) →
      ∀ c ∈ Nat.toDigitsCore 10 fuel n ds, c.isDigit = true := by
  intro fuel
  induction fuel with
  | zero =>
    intro n ds hds c hc
    exact hds c hc
  | succ fuel ih =>
    intro n ds hds c hc
    have hstep : Nat.toDigitsCore 10 (fuel + 1) n ds =
        if n / 10 = 0 then Nat.digitChar (n % 10) :: ds
        else Nat.toDigitsCore 10 fuel (n / 10) (Nat.digitChar (n % 10) :: ds) := rfl
    rw [hstep] at hc
    have hdig : (Nat.digitChar (n % 10)).isDigit = true := by
      have hlt : n % 10 < 10 := Nat.mod_lt n (by omega)
      revert hlt
      have hten : ∀ m : Nat, m < 10 → (Nat.digitChar m).isDigit = true := by decide
      exact hten (n % 10)
    have hext : ∀ d ∈ Nat.digitChar (n % 10) :: ds, d.isDigit = true := by
      intro d hd
      rcases List.mem_cons.mp hd with hd | hd
      · rw [hd]; exact hdig
      · exact hds d hd
    by_cases hz : n / 10 = 0
    · rw [if_pos hz] at hc
      exact hext c hc
    · rw [if_neg hz] at hc
      exact ih (n / 10) _ hext c hc

/-- The decimal rendering of a non-negative integer consists of digit
characters only. -/
lemma toString_ofNat_digits (n : Nat) :
    ∀ c ∈ (toString (Int.ofNat n)).data, c.isDigit = true := by
  have h1 : (toString (Int.ofNat n)).data = Nat.toDigitsCore 10 (n + 1) n [] := rfl
  rw [h1]
  exact toDigitsCore_digits (n + 1) n [] (by simp)

/-- The numeric counter form never coincides with the over-an-hour
indicator: `"60+m"` contains `'+'`, which is not a digit. -/
lemma numeric_form_ne_indicator (mins : Int) (h0 : 0 ≤ mins) :
    toString mins ++ "m" ≠ "60+m" := by
  intro heq
  have hm : mins = Int.ofNat mins.toNat := (Int.toNat_of_nonneg h0).symm
  rw [hm] at heq
  have hd : (toString (Int.ofNat mins.toNat)).data ++ ['m'] =
      ['6', '0', '+'] ++ ['m'] := by
    have := congrArg String.data heq
    simpa using this
  have hdata : (toString (Int.ofNat mins.toNat)).data = ['6', '0', '+'] :=
    List.append_cancel_right hd
  have hplus : ('+' : Char) ∈ (toString (Int.ofNat mins.toNat)).data := by
    rw [hdata]; simp
  have := toString_ofNat_digits mins.toNat '+' hplus
  simp at this

/-! Claim theorems. -/

/-- C1: for every valid `now` (hour in `[0, 23]`, minute in `[0, 59]`)
and the compiled-in non-empty schedule, `next_arrival now` compares
strictly greater than `now` under `compare`; in particular an exact match
is never returned (`next_arrival now ≠ now`). -/
theorem C1_next_arrival_strictly_greater (now : day_time)
    (h1 : 0 ≤ now.hour) (h2 : now.hour ≤ 23)
    (h3 : 0 ≤ now.minute) (h4 : now.minute ≤ 59) :
    0 < compare (next_arrival now) now ∧ next_arrival now ≠ now := by
  have hpos : 0 < compare (next_arrival now) now := by
    rcases next_arrival_cases now with ⟨_, hgt⟩ | ⟨heq, _⟩
    · exact hgt
    · rw [heq]
      exact compare_wrap_pos now h2
  refine ⟨hpos, ?_⟩
  intro he
  rw [he] at hpos
  unfold compare at hpos
  simp at hpos

/-- C1 witness: at `now = (5, 47)` (an exact schedule entry) the
hypotheses hold and the next arrival is strictly later and distinct. -/
theorem C1_witness :
    (0 ≤ ((⟨5, 47⟩ : day_time)).hour ∧ (⟨5, 47⟩ : day_time).hour ≤ 23 ∧
      0 ≤ ((⟨5, 47⟩ : day_time)).minute ∧ (⟨5, 47⟩ : day_time).minute ≤ 59) ∧
    (0 < compare (next_arrival ⟨5, 47⟩) ⟨5, 47⟩ ∧ next_arrival ⟨5, 47⟩ ≠ ⟨5, 47⟩) :=
  ⟨by decide,
   C1_next_arrival_strictly_greater ⟨5, 47⟩ (by decide) (by decide) (by decide) (by decide)⟩

/-- C2: what the code actually does at `now = (23, 59)`.  The scan skips
the trailing entries `(0, 18)` and `(0, 37)` (they compare smaller than
`(23, 59)`), so `next_arrival` falls through to the wraparound value
`(29, 47)` — not the `(24, 18)` the claim states — and the duration is
348 minutes, not 19. -/
theorem C2_code_behavior_at_2359 :
    next_arrival ⟨23, 59⟩ = ⟨29, 47⟩ ∧
    next_arrival ⟨23, 59⟩ ≠ ⟨24, 18⟩ ∧
    minutes_difference (next_arrival ⟨23, 59⟩) ⟨23, 59⟩ = 348 := by
  decide

/-- C3 counterexample: at `now = (0, 37)` the next arrival is not the
wraparound value `(29, 47)` and the duration is not 1750. -/
theorem C3_counterexample :
    ¬ (next_arrival ⟨0, 37⟩ = ⟨29, 47⟩ ∧
       minutes_difference (next_arrival ⟨0, 37⟩) ⟨0, 37⟩ = 1750) := by
  decide

/-- C3 amended: at `now = (0, 37)` the first entry `(5, 47)` already
compares strictly greater than `now`, so the scan returns it directly
(the wraparound path is not taken) and the duration is 310 minutes. -/
theorem C3_amended_behavior :
    next_arrival ⟨0, 37⟩ = ⟨5, 47⟩ ∧
    0 < compare ⟨5, 47⟩ ⟨0, 37⟩ ∧
    minutes_difference (next_arrival ⟨0, 37⟩) ⟨0, 37⟩ = 310 := by
  decide

/-- C4 counterexample: the schedule is not sorted ascending under
`compare` — the adjacent entries at indices 57 and 58 are `(23, 59)` and
`(0, 18)`, and the former compares strictly greater than the latter. -/
theorem C4_counterexample :
    ascending_pairs schedule = false ∧
    schedule.get ⟨57, by decide⟩ = ⟨23, 59⟩ ∧
    schedule.get ⟨58, by decide⟩ = ⟨0, 18⟩ ∧
    0 < compare (schedule.get ⟨57, by decide⟩) (schedule.get ⟨58, by decide⟩) := by
  decide

/-- C4 amended: the first 58 entries (through `(23, 59)`) are sorted
ascending under `compare`, and the final two post-midnight entries are
sorted between themselves, but order breaks at the day boundary
(`(23, 59)` compares greater than `(0, 18)`); every entry has hour in
`[0, 23]` and minute in `[0, 59]`. -/
theorem C4_amended_sortedness :
    ascending_pairs (schedule.take 58) = true ∧
    compare ⟨0, 18⟩ ⟨0, 37⟩ ≤ 0 ∧
    0 < compare ⟨23, 59⟩ ⟨0, 18⟩ ∧
    (∀ e ∈ schedule, 0 ≤ e.hour ∧ e.hour ≤ 23 ∧ 0 ≤ e.minute ∧ e.minute ≤ 59) := by
  decide

/-- C5: for a valid `now`, if every schedule entry compares at most
`now`, `next_arrival` returns the first entry with its hour increased by
exactly 24 and its minute unchanged, and that value compares strictly
greater than every valid point; otherwise it returns the first entry, in
stored order, that compares strictly greater than `now`. -/
theorem C5_scan_and_wraparound (now : day_time)
    (h1 : 0 ≤ now.hour) (h2 : now.hour ≤ 23)
    (h3 : 0 ≤ now.minute) (h4 : now.minute ≤ 59) :
    ((∀ e ∈ schedule, compare e now ≤ 0) →
      next_arrival now = { hour := (schedule.headD ⟨0, 0⟩).hour + 24,
                           minute := (schedule.headD ⟨0, 0⟩).minute } ∧
      ∀ m : day_time, 0 ≤ m.hour → m.hour ≤ 23 → 0 ≤ m.minute → m.minute ≤ 59 →
        0 < compare (next_arrival now) m) ∧
    ((¬ ∀ e ∈ schedule, compare e now ≤ 0) →
      ∃ i : Fin schedule.length,
        next_arrival now = schedule.get i ∧
        0 < compare (schedule.get i) now ∧
        ∀ j : Fin schedule.length, (j : Nat) < (i : Nat) →
          compare (schedule.get j) now ≤ 0) := by
  constructor
  · intro hall
    have hnone : schedule.find? (fun e => decide (0 < compare e now)) = none := by
      rw [List.find?_eq_none]
      intro e he
      simpa using not_lt.mpr (hall e he)
    have heq : next_arrival now = ⟨29, 47⟩ := by
      unfold next_arrival
      rw [hnone]
      rfl
    refine ⟨by rw [heq]; rfl, ?_⟩
    intro m _ hm2 _ _
    rw [heq]
    exact compare_wrap_pos m hm2
  · intro hex
    cases hf : schedule.find? (fun e => decide (0 < compare e now)) with
    | none =>
      exfalso
      apply hex
      intro e he
      have hne := List.find?_eq_none.mp hf e he
      simp only [decide_eq_true_eq] at hne
      omega
    | some a =>
      obtain ⟨i, hget, hpa, hprev⟩ := find?_first _ schedule a hf
      refine ⟨i, ?_, ?_, ?_⟩
      · have ha : next_arrival now = a := by unfold next_arrival; rw [hf]
        rw [ha, hget]
      · rw [hget]
        simpa using hpa
      · intro j hj
        have := hprev j hj
        simpa using this

/-- C5 witness: at `now = (23, 59)` every entry compares at most `now`
and the wraparound branch applies. -/
theorem C5_witness :
    (0 ≤ ((⟨23, 59⟩ : day_time)).hour ∧ (⟨23, 59⟩ : day_time).hour ≤ 23 ∧
      0 ≤ ((⟨23, 59⟩ : day_time)).minute ∧ (⟨23, 59⟩ : day_time).minute ≤ 59) ∧
    (∀ e ∈ schedule, compare e ⟨23, 59⟩ ≤ 0) ∧
    next_arrival ⟨23, 59⟩ = { hour := (schedule.headD ⟨0, 0⟩).hour + 24,
                              minute := (schedule.headD ⟨0, 0⟩).minute } :=
  ⟨by decide, by decide,
   ((C5_scan_and_wraparound ⟨23, 59⟩ (by decide) (by decide) (by decide)
      (by decide)).1 (by decide)).1⟩

/-- C6: whenever `next` compares strictly greater than `now` (minutes in
range, hours non-negative), the carry-based duration is non-negative;
and for every valid `now`, the duration to the next arrival lies in
`[0, 1440)`. -/
theorem C6_duration_nonneg_and_bounded :
    (∀ next now : day_time,
      0 ≤ next.hour → 0 ≤ now.hour →
      0 ≤ next.minute → next.minute ≤ 59 →
      0 ≤ now.minute → now.minute ≤ 59 →
      0 < compare next now → 0 ≤ minutes_difference next now) ∧
    (∀ now : day_time, 0 ≤ now.hour → now.hour ≤ 23 →
      0 ≤ now.minute → now.minute ≤ 59 →
      0 ≤ minutes_difference (next_arrival now) now ∧
        minutes_difference (next_arrival now) now < 1440) := by
  constructor
  · intro next now _ _ ha1 ha2 hb1 hb2 hcmp
    rw [minutes_difference_total]
    have := (compare_pos_iff next now ha1 ha2 hb1 hb2).mp hcmp
    omega
  · intro now h1 h2 h3 h4
    exact duration_bounds now h1 h2 h3 h4

/-- C6 witness: concrete instances of both conjuncts, at the adjacent
entries `(6, 6)` and `(5, 47)` and at `now = (12, 0)`. -/
theorem C6_witness :
    (0 < compare ⟨6, 6⟩ ⟨5, 47⟩ ∧ 0 ≤ minutes_difference ⟨6, 6⟩ ⟨5, 47⟩) ∧
    (0 ≤ minutes_difference (next_arrival ⟨12, 0⟩) ⟨12, 0⟩ ∧
      minutes_difference (next_arrival ⟨12, 0⟩) ⟨12, 0⟩ < 1440) :=
  ⟨⟨by decide,
    C6_duration_nonneg_and_bounded.1 ⟨6, 6⟩ ⟨5, 47⟩ (by decide) (by decide)
      (by decide) (by decide) (by decide) (by decide) (by decide)⟩,
   C6_duration_nonneg_and_bounded.2 ⟨12, 0⟩ (by decide) (by decide) (by decide)
     (by decide)⟩

/-- C7: for minutes in `[0, 59]` and with no ordering precondition, the
carry-based `minutes_difference` equals the total-minutes model
difference. -/
theorem C7_carry_equals_total_model (next now : day_time)
    (h1 : 0 ≤ next.minute) (h2 : next.minute ≤ 59)
    (h3 : 0 ≤ now.minute) (h4 : now.minute ≤ 59) :
    minutes_difference next now =
      total_minutes_model next - total_minutes_model now := by
  rw [minutes_difference_total]
  rfl

/-- C7 witness: the equality at the pair `(5, 47)`, `(23, 59)` (note the
ordering precondition is violated there, and the equality still holds). -/
theorem C7_witness :
    (0 ≤ ((⟨5, 47⟩ : day_time)).minute ∧ (⟨5, 47⟩ : day_time).minute ≤ 59 ∧
      0 ≤ ((⟨23, 59⟩ : day_time)).minute ∧ (⟨23, 59⟩ : day_time).minute ≤ 59) ∧
    minutes_difference ⟨5, 47⟩ ⟨23, 59⟩ =
      total_minutes_model ⟨5, 47⟩ - total_minutes_model ⟨23, 59⟩ :=
  ⟨by decide,
   C7_carry_equals_total_model ⟨5, 47⟩ ⟨23, 59⟩ (by decide) (by decide)
     (by decide) (by decide)⟩

/-- C8: for every valid `now`, with `mins` the duration to the next
arrival, the counter text is `"60+m"` exactly when `mins > 60` and the
numeric `Nm` form exactly when `mins ≤ 60`; and the hour shown in the
details text always lies in `[0, 23]`. -/
theorem C8_formatting (now : day_time)
    (h1 : 0 ≤ now.hour) (h2 : now.hour ≤ 23)
    (h3 : 0 ≤ now.minute) (h4 : now.minute ≤ 59) :
    (counter_text (minutes_difference (next_arrival now) now) = "60+m" ↔
      60 < minutes_difference (next_arrival now) now) ∧
    (counter_text (minutes_difference (next_arrival now) now) =
        toString (minutes_difference (next_arrival now) now) ++ "m" ↔
      minutes_difference (next_arrival now) now ≤ 60) ∧
    0 ≤ displayed_hour (next_arrival now) ∧
      displayed_hour (next_arrival now) ≤ 23 := by
  obtain ⟨hge, _⟩ := duration_bounds now h1 h2 h3 h4
  refine ⟨?_, ?_, ?_⟩
  · by_cases h : 60 < minutes_difference (next_arrival now) now
    · simp [counter_text, h]
    · simp only [counter_text, if_neg h]
      exact ⟨fun he => absurd he (numeric_form_ne_indicator _ hge), fun hlt => absurd hlt h⟩
  · by_cases h : 60 < minutes_difference (next_arrival now) now
    · simp only [counter_text, if_pos h]
      constructor
      · intro he
        exact absurd he.symm (numeric_form_ne_indicator _ hge)
      · intro hle
        omega
    · simp only [counter_text, if_neg h]
      simp only [true_iff]
      omega
  · rcases next_arrival_cases now with ⟨hmem, _⟩ | ⟨heq, _⟩
    · obtain ⟨e1, e2, _, _⟩ := schedule_entries_valid _ hmem
      unfold displayed_hour
      split_ifs <;> omega
    · rw [heq]
      exact ⟨by decide, by decide⟩

/-- C8 witness: at `now = (12, 0)` the next arrival is `(12, 2)`, the
duration is 2, the counter shows the numeric form, and the displayed
hour is in range. -/
theorem C8_witness :
    (0 ≤ ((⟨12, 0⟩ : day_time)).hour ∧ (⟨12, 0⟩ : day_time).hour ≤ 23 ∧
      0 ≤ ((⟨12, 0⟩ : day_time)).minute ∧ (⟨12, 0⟩ : day_time).minute ≤ 59) ∧
    ((counter_text (minutes_difference (next_arrival ⟨12, 0⟩) ⟨12, 0⟩) = "60+m" ↔
       60 < minutes_difference (next_arrival ⟨12, 0⟩) ⟨12, 0⟩) ∧
     (counter_text (minutes_difference (next_arrival ⟨12, 0⟩) ⟨12, 0⟩) =
         toString (minutes_difference (next_arrival ⟨12, 0⟩) ⟨12, 0⟩) ++ "m" ↔
       minutes_difference (next_arrival ⟨12, 0⟩) ⟨12, 0⟩ ≤ 60) ∧
     0 ≤ displayed_hour (next_arrival ⟨12, 0⟩) ∧
       displayed_hour (next_arrival ⟨12, 0⟩) ≤ 23) :=
  ⟨by decide,
   C8_formatting ⟨12, 0⟩ (by decide) (by decide) (by decide) (by decide)⟩

/-- C9 counterexample: for the empty timetable, `init` does not report
an empty-timetable error (it performs no validation at all), and the
lookup is still reachable — on the empty timetable it has no defined
result (the C fallback would read `schedule[0]` out of bounds). -/
theorem C9_counterexample :
    init_reports_empty_error [] = false ∧
    next_arrival_list [] ⟨12, 0⟩ = none :=
  ⟨rfl, rfl⟩

/-- C9 amended: `init` never reports an empty-timetable error for any
timetable; on an empty timetable the lookup itself is reached and has no
defined result; the compiled-in timetable is non-empty (60 entries), so
the lookup precondition always holds in the shipped configuration, where
the generalized lookup agrees with `next_arrival`. -/
theorem C9_amended_no_validation :
    (∀ sched : List day_time, init_reports_empty_error sched = false) ∧
    (∀ now : day_time, next_arrival_list [] now = none) ∧
    schedule.length = 60 ∧
    (∀ now : day_time, next_arrival_list schedule now = some (next_arrival now)) := by
  refine ⟨fun _ => rfl, fun _ => rfl, by decide, ?_⟩
  intro now
  unfold next_arrival_list next_arrival
  cases hf : schedule.find? (fun e => decide (0 < compare e now)) with
  | some e => rfl
  | none => rfl

/-- C10: for every `now` with any hour and minute in `[0, 59]`,
`next_arrival` never returns the post-midnight trailing entries
`(0, 18)` or `(0, 37)`: whenever one of them would compare greater than
`now`, the first entry `(5, 47)` already did, and the wraparound
fallback returns `(29, 47)`. -/
theorem C10_trailing_entries_unreachable (now : day_time)
    (h3 : 0 ≤ now.minute) (h4 : now.minute ≤ 59) :
    next_arrival now ≠ ⟨0, 18⟩ ∧ next_arrival now ≠ ⟨0, 37⟩ := by
  have main : ∀ v : day_time, v.hour = 0 → next_arrival now ≠ v := by
    intro v hv0 hne
    cases hf : schedule.find? (fun e => decide (0 < compare e now)) with
    | none =>
      have heq : next_arrival now = ⟨29, 47⟩ := by
        unfold next_arrival
        rw [hf]
        rfl
      rw [hne] at heq
      have : v.hour = 29 := by rw [heq]
      omega
    | some a =>
      have ha : next_arrival now = a := by unfold next_arrival; rw [hf]
      have hva : a = v := by rw [← ha, hne]
      have hpa : 0 < compare v now := by
        have := List.find?_some hf
        rw [hva] at this
        simpa using this
      have hnow : now.hour ≤ 0 := by
        unfold compare at hpa
        rw [hv0] at hpa
        split_ifs at hpa <;> omega
      have hp5 : (fun e => decide (0 < compare e now)) (⟨5, 47⟩ : day_time) = true := by
        have hc : compare (⟨5, 47⟩ : day_time) now =
            if (5 : Int) < now.hour then -1
            else if (5 : Int) = now.hour then 47 - now.minute else 1 := rfl
        simp only [decide_eq_true_eq, hc]
        split_ifs <;> omega
      obtain ⟨rest, hrest⟩ : ∃ rest, schedule = ⟨5, 47⟩ :: rest := ⟨schedule.tail, rfl⟩
      rw [hrest] at hf
      rw [@List.find?_cons_of_pos day_time (fun e => decide (0 < compare e now))
          ⟨5, 47⟩ rest hp5] at hf
      have ha5 : a = ⟨5, 47⟩ := by injection hf with h; exact h.symm
      rw [ha5] at hva
      have : v.hour = 5 := by rw [← hva]
      omega
  exact ⟨main ⟨0, 18⟩ rfl, main ⟨0, 37⟩ rfl⟩

/-- C10 witness: at `now = (0, 10)` — a point below both trailing
entries — the next arrival is neither `(0, 18)` nor `(0, 37)`. -/
theorem C10_witness :
    (0 ≤ ((⟨0, 10⟩ : day_time)).minute ∧ (⟨0, 10⟩ : day_time).minute ≤ 59) ∧
    (next_arrival ⟨0, 10⟩ ≠ ⟨0, 18⟩ ∧ next_arrival ⟨0, 10⟩ ≠ ⟨0, 37⟩) :=
  ⟨by decide, C10_trailing_entries_unreachable ⟨0, 10⟩ (by decide) (by decide)⟩

end BusWatchface
